import Mathlib

/-!
Verification development for the object-detection inference server
(`server/inference_server.py`).

The Python source is shallowly embedded: images are rectangular grids of
RGB pixels, floating point values are modelled by exact rationals, and the
three externally supplied components (the ONNX backend, `cv2.resize`, and
the `cv2` contour machinery used by the fallback detector) are modelled
explicitly where noted.  Every definition mirrors the corresponding lines
of `ObjectDetectionServer`.
-/

/-- An RGB pixel: channel values `0..255`. -/
abbrev Pixel := ℕ × ℕ × ℕ

/-- An image, as in `np.ndarray` with shape `(h, w, 3)`: a list of rows. -/
abbrev Image := List (List Pixel)

/-- `image.shape[0]`. -/
def imageHeight (img : Image) : ℕ := img.length

/-- `image.shape[1]`. -/
def imageWidth (img : Image) : ℕ := (img.headD []).length

/-- The public output unit produced by both detection paths
(`postprocess_detections` and `fallback_detection`). -/
structure Detection where
  label : String
  score : ℚ
  xmin : ℚ
  ymin : ℚ
  xmax : ℚ
  ymax : ℚ
deriving DecidableEq, Repr

/-- One row of the raw backend output `[cx, cy, w, h, object_conf,
class_score_0, ..., class_score_{C-1}]` (YOLO layout `[1, N, 5+C]`). -/
structure RawRow where
  cx : ℚ
  cy : ℚ
  bw : ℚ
  bh : ℚ
  conf : ℚ
  classScores : List ℚ
deriving DecidableEq, Repr

/-- The mutable state of `ObjectDetectionServer`: configuration, backend
presence (`self.session is not None`), and the running statistics. -/
structure ServerState where
  confidence_threshold : ℚ
  model_path : Option String
  hasSession : Bool
  input_shape : ℕ × ℕ
  class_names : List String
  inference_count : ℕ
  total_inference_time : ℚ
deriving DecidableEq, Repr

/-- `np.max` over a score list (`np.max` of a nonempty axis; the empty case
never reaches this function, see `postprocess_detections`). -/
def maxList : List ℚ → ℚ
  | [] => 0
  | x :: xs => xs.foldl max x

/-- Helper for `argmaxList`: scan with current index, best index, best value.
`np.argmax` keeps the first occurrence of the maximum. -/
def argmaxAux : List ℚ → ℕ → ℕ → ℚ → ℕ
  | [], _, bi, _ => bi
  | x :: xs, i, bi, bv =>
      if bv < x then argmaxAux xs (i + 1) i x else argmaxAux xs (i + 1) bi bv

/-- `np.argmax` over a score list. -/
def argmaxList : List ℚ → ℕ
  | [] => 0
  | x :: xs => argmaxAux xs 1 0 x

/-- The pre-clamp corner coordinates of one raw row, after inverting the
letterbox transform and normalising by the original width/height
(lines 172–181 of the source, before the `max 0` / `min 1` clamps):
`(xlo, ylo, xhi, yhi)`. -/
def preclampCorners (scale px py : ℚ) (oh ow : ℕ) (r : RawRow) : ℚ × ℚ × ℚ × ℚ :=
  let xc := (r.cx - px) / scale
  let yc := (r.cy - py) / scale
  let w := r.bw / scale
  let h := r.bh / scale
  ((xc - w / 2) / (ow : ℚ), (yc - h / 2) / (oh : ℚ),
   (xc + w / 2) / (ow : ℚ), (yc + h / 2) / (oh : ℚ))

/-- `class_names[class_id] if class_id < len(class_names) else f"class_{class_id}"`. -/
def classNameOf (classNames : List String) (classId : ℕ) : String :=
  classNames.getD classId ("class_" ++ toString classId)

/-- Builds the Detection appended for one surviving row
(lines 169–193 of the source). -/
def mkDetection (classNames : List String) (scale px py : ℚ) (oh ow : ℕ)
    (r : RawRow) : Detection :=
  let c := preclampCorners scale px py oh ow r
  { label := classNameOf classNames (argmaxList r.classScores)
    score := r.conf * maxList r.classScores
    xmin := max 0 c.1
    ymin := max 0 c.2.1
    xmax := min 1 c.2.2.1
    ymax := min 1 c.2.2.2 }

/-- The final confidence `object_conf * class_conf` of one row. -/
def finalConf (r : RawRow) : ℚ := r.conf * maxList r.classScores

/-- The per-row loop of `postprocess_detections` (lines 167–193): appends a
detection for each row whose final confidence exceeds the threshold. -/
def decodeLoop (threshold : ℚ) (classNames : List String) (scale px py : ℚ)
    (oh ow : ℕ) (valid : List RawRow) : List Detection :=
  valid.foldl
    (fun acc r =>
      if threshold < finalConf r then
        acc ++ [mkDetection classNames scale px py oh ow r]
      else acc)
    []

/-- `postprocess_detections` (lines 134–198).  The first filter keeps rows
with `object_conf > threshold`; an empty survivor set returns early; if the
class-score axis has width zero, `np.argmax` raises and the `except` block
returns the (still empty) accumulator; otherwise the per-row loop runs. -/
def postprocess_detections (threshold : ℚ) (classNames : List String)
    (outputs : List RawRow) (originalShape : ℕ × ℕ) (scale : ℚ)
    (padding : ℚ × ℚ) : List Detection :=
  let valid := outputs.filter (fun r => decide (threshold < r.conf))
  if valid.isEmpty then []
  else if valid.any (fun r => r.classScores.isEmpty) then []
  else decodeLoop threshold classNames scale padding.1 padding.2
        originalShape.1 originalShape.2 valid

/-- Models `postprocess_detections` when an exception interrupts the per-row
loop: `raiseAt` is the index of the surviving candidate whose processing
raises (any Python operation can raise at runtime, e.g. `MemoryError` on an
append).  The `try` block's accumulator `detections` is initialised before
the `try` and returned after the `except` (line 198), so the rows already
processed keep their appended detections. -/
def postprocess_detections_exn (threshold : ℚ) (classNames : List String)
    (outputs : List RawRow) (originalShape : ℕ × ℕ) (scale : ℚ)
    (padding : ℚ × ℚ) (raiseAt : ℕ) : List Detection :=
  let valid := outputs.filter (fun r => decide (threshold < r.conf))
  if valid.isEmpty then []
  else if valid.any (fun r => r.classScores.isEmpty) then []
  else decodeLoop threshold classNames scale padding.1 padding.2
        originalShape.1 originalShape.2 (valid.take raiseAt)

/-! ## Image preprocessing (`preprocess_image`, lines 103–132) -/

/-- `scale = min(target_w / w, target_h / h)` (line 110). -/
def letterbox_scale (h w th tw : ℕ) : ℚ :=
  min ((tw : ℚ) / (w : ℚ)) ((th : ℚ) / (h : ℚ))

/-- `new_w, new_h = int(w * scale), int(h * scale)` (line 111).  Python's
`int()` truncates toward zero; the operands are non-negative, so this is the
floor. -/
def resized_dims (h w th tw : ℕ) : ℕ × ℕ :=
  ((⌊(w : ℚ) * letterbox_scale h w th tw⌋).toNat,
   (⌊(h : ℚ) * letterbox_scale h w th tw⌋).toNat)

/-- `pad_x = (target_w - new_w) // 2`, `pad_y = (target_h - new_h) // 2`
(lines 120–121). -/
def pad_offsets (h w th tw : ℕ) : ℕ × ℕ :=
  ((tw - (resized_dims h w th tw).1) / 2, (th - (resized_dims h w th tw).2) / 2)

/-- Modelled from the spec: `cv2.resize(image, (nw, nh), INTER_LINEAR)` is an
external library call; the spec fixes only that the image is resized to the
requested dimensions, so pixel values are modelled by nearest sampling while
the output grid is exactly `nh` rows of `nw` pixels. -/
def resizeExt (img : Image) (nw nh : ℕ) : Image :=
  (List.range nh).map (fun i =>
    (List.range nw).map (fun j =>
      (img.getD (i * imageHeight img / nh) []).getD (j * imageWidth img / nw)
        (0, 0, 0)))

/-- The `padded` canvas (lines 117–124): a `target_h × target_w` grid filled
with the gray value 114 per channel, with the resized image placed at offset
`(pad_x, pad_y)`. -/
def letterbox_canvas (img : Image) (th tw : ℕ) : Image :=
  let h := imageHeight img
  let w := imageWidth img
  let nwh := resized_dims h w th tw
  let resized := resizeExt img nwh.1 nwh.2
  let pads := pad_offsets h w th tw
  (List.range th).map (fun i =>
    (List.range tw).map (fun j =>
      if pads.2 ≤ i ∧ i < pads.2 + nwh.2 ∧ pads.1 ≤ j ∧ j < pads.1 + nwh.1 then
        (resized.getD (i - pads.2) []).getD (j - pads.1) (0, 0, 0)
      else (114, 114, 114)))

/-- Lines 128–130: transpose HWC → CHW, scale to `[0,1]`, prepend a batch
dimension of size 1. -/
def image_tensor (padded : Image) : List (List (List (List ℚ))) :=
  [[padded.map (fun row => row.map (fun p => (p.1 : ℚ) / 255)),
    padded.map (fun row => row.map (fun p => (p.2.1 : ℚ) / 255)),
    padded.map (fun row => row.map (fun p => (p.2.2 : ℚ) / 255))]]

/-- `preprocess_image` (lines 103–132): returns
`(input_tensor, scale, (pad_x, pad_y))`. -/
def preprocess_image (img : Image) (inputShape : ℕ × ℕ) :
    List (List (List (List ℚ))) × ℚ × (ℕ × ℕ) :=
  let h := imageHeight img
  let w := imageWidth img
  (image_tensor (letterbox_canvas img inputShape.1 inputShape.2),
   letterbox_scale h w inputShape.1 inputShape.2,
   pad_offsets h w inputShape.1 inputShape.2)

/-! ## Fallback heuristic detector (`fallback_detection`, lines 200–237) -/

/-- Modelled from the spec: `cv2.cvtColor(image, COLOR_RGB2HSV)` is an
external library call; the spec asks for "a hue/saturation/value
representation".  This is the standard 8-bit formula (hue in `[0,180)`,
saturation/value in `[0,255]`). -/
def rgbToHsv (p : Pixel) : Pixel :=
  let r := p.1
  let g := p.2.1
  let b := p.2.2
  let v := max r (max g b)
  let mn := min r (min g b)
  let d := v - mn
  let s := if v = 0 then 0 else (255 * d) / v
  let hsigned : ℤ :=
    if d = 0 then 0
    else if v = r then (30 * ((g : ℤ) - (b : ℤ))) / (d : ℤ)
    else if v = g then 60 + (30 * ((b : ℤ) - (r : ℤ))) / (d : ℤ)
    else 120 + (30 * ((r : ℤ) - (g : ℤ))) / (d : ℤ)
  ((if hsigned < 0 then hsigned + 180 else hsigned).toNat, s, v)

/-- `cv2.inRange(hsv, lo, hi)` for one pixel: componentwise inclusive range
test. -/
def inRangePix (lo hi p : Pixel) : Bool :=
  decide (lo.1 ≤ p.1 ∧ p.1 ≤ hi.1 ∧ lo.2.1 ≤ p.2.1 ∧ p.2.1 ≤ hi.2.1 ∧
          lo.2.2 ≤ p.2.2 ∧ p.2.2 ≤ hi.2.2)

/-- Lines 206–217: HSV conversion, the two red hue-band masks
(`[0,10]` and `[170,180]`, saturation/value at least 50), and their
`cv2.bitwise_or`. -/
def red_mask (image : Image) : List (List Bool) :=
  let hsv := image.map (fun row => row.map rgbToHsv)
  let mask1 := hsv.map (fun row => row.map (inRangePix (0, 50, 50) (10, 255, 255)))
  let mask2 := hsv.map (fun row => row.map (inRangePix (170, 50, 50) (180, 255, 255)))
  List.zipWith (List.zipWith (· || ·)) mask1 mask2

/-- The maximal runs of `true` pixels in one mask row, as half-open column
intervals `(start, stop)`; helper carrying the current column index and the
start of the open run. -/
def rowRunsAux : List Bool → ℕ → Option ℕ → List (ℕ × ℕ)
  | [], _, none => []
  | [], j, some st => [(st, j)]
  | bb :: bs, j, none =>
      if bb then rowRunsAux bs (j + 1) (some j) else rowRunsAux bs (j + 1) none
  | bb :: bs, j, some st =>
      if bb then rowRunsAux bs (j + 1) (some st)
      else (st, j) :: rowRunsAux bs (j + 1) none

/-- The runs of `true` pixels in one mask row. -/
def rowRuns (row : List Bool) : List (ℕ × ℕ) := rowRunsAux row 0 none

/-- A connected component under construction during the row sweep: pixel
count, bounding extents, and its runs on the previous and current rows. -/
structure CompState where
  area : ℕ
  minx : ℕ
  maxx : ℕ
  miny : ℕ
  maxy : ℕ
  prevRuns : List (ℕ × ℕ)
  curRuns : List (ℕ × ℕ)
deriving DecidableEq, Repr

/-- 8-connectivity between a run of the current row and a component's runs on
the previous row: run `[s,e)` touches run `[a,b)` iff `s ≤ b ∧ a ≤ e`. -/
def runTouches (run : ℕ × ℕ) (c : CompState) : Bool :=
  c.prevRuns.any (fun pr => decide (run.1 ≤ pr.2) && decide (pr.1 ≤ run.2))

/-- Merge the components touched by a new run on row `i` (with the run
itself) into one component. -/
def mergeComps (i : ℕ) (run : ℕ × ℕ) (cs : List CompState) : CompState where
  area := (cs.map (fun c => c.area)).sum + (run.2 - run.1)
  minx := cs.foldl (fun m c => min m c.minx) run.1
  maxx := cs.foldl (fun m c => max m c.maxx) (run.2 - 1)
  miny := cs.foldl (fun m c => min m c.miny) i
  maxy := cs.foldl (fun m c => max m c.maxy) i
  prevRuns := cs.foldr (fun c acc => c.prevRuns ++ acc) []
  curRuns := run :: cs.foldr (fun c acc => c.curRuns ++ acc) []

/-- Row sweep: processes the mask row by row, extending/merging active
components with the runs of each row and retiring components that receive no
run (an 8-connected component occupies consecutive rows). -/
def sweep : List (List Bool) → ℕ → List CompState → List CompState → List CompState
  | [], _, finished, active => finished ++ active
  | row :: rest, i, finished, active =>
      let act0 := active.map
        (fun c => { c with prevRuns := c.curRuns, curRuns := ([] : List (ℕ × ℕ)) })
      let act1 := (rowRuns row).foldl
        (fun act run =>
          mergeComps i run (act.filter (runTouches run)) ::
            act.filter (fun c => !(runTouches run c)))
        act0
      sweep rest (i + 1)
        (finished ++ act1.filter (fun c => c.curRuns.isEmpty))
        (act1.filter (fun c => !(c.curRuns.isEmpty)))

/-- One extracted contour, reduced to what lines 223–226 consume: its
`cv2.contourArea` (modelled as its pixel count) and its `cv2.boundingRect`
`(x, y, w, h)`. -/
structure Contour where
  area : ℕ
  x : ℕ
  y : ℕ
  cw : ℕ
  ch : ℕ
deriving DecidableEq, Repr

/-- Modelled from the spec: `cv2.findContours(mask, RETR_EXTERNAL,
CHAIN_APPROX_SIMPLE)` with `cv2.contourArea`/`cv2.boundingRect` are external
library calls; the spec reads "extract connected external contours from the
mask, and for each contour with pixel area > 500 …", so contours are
modelled as the 8-connected components of the mask, with pixel-count area
and tight bounding rectangle. -/
def findContoursModel (mask : List (List Bool)) : List Contour :=
  (sweep mask 0 [] []).map
    (fun c => ⟨c.area, c.minx, c.miny, c.maxx - c.minx + 1, c.maxy - c.miny + 1⟩)

/-- The Detection appended for one large-enough contour (lines 228–235):
fixed label `"red_object"`, fixed score `0.8`, bounding rectangle normalised
by the image dimensions. -/
def mkFallbackDetection (h w : ℕ) (c : Contour) : Detection :=
  ⟨"red_object", 4/5, (c.x : ℚ) / (w : ℚ), (c.y : ℚ) / (h : ℚ),
   ((c.x + c.cw : ℕ) : ℚ) / (w : ℚ), ((c.y + c.ch : ℕ) : ℚ) / (h : ℚ)⟩

/-- The per-contour loop of `fallback_detection` (lines 222–235): one
Detection per contour of area above 500. -/
def fallbackDetFromContours (contours : List Contour) (h w : ℕ) : List Detection :=
  contours.foldl
    (fun acc c =>
      if 500 < c.area then acc ++ [mkFallbackDetection h w c] else acc)
    []

/-- `fallback_detection` (lines 200–237).  Takes `self` like the Python
method; the body never reads any server field. -/
def fallback_detection (s : ServerState) (image : Image) : List Detection :=
  fallbackDetFromContours (findContoursModel (red_mask image))
    (imageHeight image) (imageWidth image)

/-! ## `detect` (lines 239–268) -/

/-- The environment of one `detect` call: whether an exception escapes the
dispatched path (preprocessing, `session.run`, or the fallback) before the
metric update, the raw arrays the opaque backend returns, and the elapsed
wall-clock time `time.time() - start_time`. -/
structure DetectOracle where
  pathRaises : Bool
  outputs : List RawRow
  elapsed : ℚ
deriving DecidableEq, Repr

/-- `detect` (lines 239–268): dispatches to the model path or the fallback;
on an escaping exception the `except` block returns `[]` (the metric updates
inside the `try` are skipped); otherwise the metrics are updated and the
detections returned. -/
def detect (s : ServerState) (image : Image) (o : DetectOracle) :
    ServerState × List Detection :=
  if o.pathRaises then (s, [])
  else
    let dets :=
      if s.hasSession then
        let pre := preprocess_image image s.input_shape
        postprocess_detections s.confidence_threshold s.class_names o.outputs
          (imageHeight image, imageWidth image) pre.2.1
          ((pre.2.2.1 : ℚ), (pre.2.2.2 : ℚ))
      else fallback_detection s image
    ({ s with
        inference_count := s.inference_count + 1,
        total_inference_time := s.total_inference_time + o.elapsed }, dets)

/-! ## Concrete sample data -/

/-- A concrete server state (fallback mode, default configuration). -/
def sampleServer : ServerState where
  confidence_threshold := 1/2
  model_path := none
  hasSession := false
  input_shape := (640, 640)
  class_names := ["person", "bicycle", "car"]
  inference_count := 0
  total_inference_time := 0

/-- A 34 × 34 black image containing a single pure-red square of side 30
(area 900 px²) at offset (2, 2). -/
def redSquareImage : Image :=
  (List.range 34).map (fun i =>
    (List.range 34).map (fun j =>
      if 2 ≤ i ∧ i < 32 ∧ 2 ≤ j ∧ j < 32 then (255, 0, 0) else (0, 0, 0)))

/-- The pre-clamp corner interval of a raw row is ordered and meets `[0,1]`
on both axes (the condition under which the one-sided clamps of lines
178–181 produce an ordered box). -/
def boxMeetsImage (scale px py : ℚ) (oh ow : ℕ) (r : RawRow) : Prop :=
  let c := preclampCorners scale px py oh ow r
  c.1 ≤ c.2.2.1 ∧ c.1 ≤ 1 ∧ 0 ≤ c.2.2.1 ∧
  c.2.1 ≤ c.2.2.2 ∧ c.2.1 ≤ 1 ∧ 0 ≤ c.2.2.2

/-- Bounds carried through the sweep: the extents of a component stay inside
the `w × hh` grid. -/
def compOK (w hh : ℕ) (c : CompState) : Prop :=
  c.minx ≤ c.maxx ∧ c.maxx < w ∧ c.miny ≤ c.maxy ∧ c.maxy < hh

/-- The amended contract of `preprocess_image`: scale formula, floor-based
resize dimensions, centered placement on a 114-gray canvas of exactly
`(target_h, target_w)`, floor-division padding offsets, and the returned
triple. -/
def LetterboxSpec (img : Image) (th tw : ℕ) : Prop :=
  (preprocess_image img (th, tw)).2.1
      = min ((tw : ℚ) / (imageWidth img : ℚ)) ((th : ℚ) / (imageHeight img : ℚ)) ∧
  (preprocess_image img (th, tw)).2.2
      = ((tw - (resized_dims (imageHeight img) (imageWidth img) th tw).1) / 2,
         (th - (resized_dims (imageHeight img) (imageWidth img) th tw).2) / 2) ∧
  (preprocess_image img (th, tw)).1 = image_tensor (letterbox_canvas img th tw) ∧
  (resizeExt img (resized_dims (imageHeight img) (imageWidth img) th tw).1
      (resized_dims (imageHeight img) (imageWidth img) th tw).2).length
      = (resized_dims (imageHeight img) (imageWidth img) th tw).2 ∧
  (∀ row ∈ resizeExt img (resized_dims (imageHeight img) (imageWidth img) th tw).1
      (resized_dims (imageHeight img) (imageWidth img) th tw).2,
    row.length = (resized_dims (imageHeight img) (imageWidth img) th tw).1) ∧
  (letterbox_canvas img th tw).length = th ∧
  (∀ row ∈ letterbox_canvas img th tw, row.length = tw) ∧
  (∀ i j, i < th → j < tw →
    ¬((pad_offsets (imageHeight img) (imageWidth img) th tw).2 ≤ i ∧
      i < (pad_offsets (imageHeight img) (imageWidth img) th tw).2
            + (resized_dims (imageHeight img) (imageWidth img) th tw).2 ∧
      (pad_offsets (imageHeight img) (imageWidth img) th tw).1 ≤ j ∧
      j < (pad_offsets (imageHeight img) (imageWidth img) th tw).1
            + (resized_dims (imageHeight img) (imageWidth img) th tw).1) →
    ((letterbox_canvas img th tw).getD i []).getD j (0, 0, 0) = (114, 114, 114)) ∧
  (∀ i j, i < th → j < tw →
    (pad_offsets (imageHeight img) (imageWidth img) th tw).2 ≤ i →
    i < (pad_offsets (imageHeight img) (imageWidth img) th tw).2
          + (resized_dims (imageHeight img) (imageWidth img) th tw).2 →
    (pad_offsets (imageHeight img) (imageWidth img) th tw).1 ≤ j →
    j < (pad_offsets (imageHeight img) (imageWidth img) th tw).1
          + (resized_dims (imageHeight img) (imageWidth img) th tw).1 →
    ((letterbox_canvas img th tw).getD i []).getD j (0, 0, 0)
      = ((resizeExt img (resized_dims (imageHeight img) (imageWidth img) th tw).1
            (resized_dims (imageHeight img) (imageWidth img) th tw).2).getD
          (i - (pad_offsets (imageHeight img) (imageWidth img) th tw).2) []).getD
          (j - (pad_offsets (imageHeight img) (imageWidth img) th tw).1)
          (0, 0, 0)) ∧
  (image_tensor (letterbox_canvas img th tw)).length = 1 ∧
  ((image_tensor (letterbox_canvas img th tw)).headD []).length = 3 ∧
  (∀ plane ∈ (image_tensor (letterbox_canvas img th tw)).headD [],
    plane.length = th ∧ ∀ prow ∈ plane, prow.length = tw)

/-! ## Generic list lemmas -/

/-- A fold that appends `[f r]` for the elements satisfying `q` is the map of
the filter. -/
theorem foldl_append_ite {α β : Type} (q : α → Prop) [DecidablePred q]
    (f : α → β) (l : List α) (init : List β) :
    l.foldl (fun acc r => if q r then acc ++ [f r] else acc) init
      = init ++ (l.filter (fun r => decide (q r))).map f := by
  induction l generalizing init with
  | nil => simp
  | cons a t ih =>
      by_cases h : q a <;>
        simp [List.foldl_cons, List.filter_cons, h, ih, List.append_assoc]

/-- Filtering with a pointwise-stronger predicate yields at most as many
elements. -/
theorem length_filter_mono {α : Type} (p q : α → Bool) (l : List α)
    (h : ∀ a ∈ l, p a = true → q a = true) :
    (l.filter p).length ≤ (l.filter q).length := by
  induction l with
  | nil => simp
  | cons a t ih =>
      have ht : ∀ a ∈ t, p a = true → q a = true := fun a ha => h a (by simp [ha])
      by_cases hp : p a
      · have hq : q a = true := h a (by simp) hp
        simp [List.filter_cons, hp, hq, Nat.succ_le_succ (ih ht)]
      · have hih := ih ht
        by_cases hq : q a <;> simp [List.filter_cons, hp, hq] <;> omega

/-- `zipWith` of two maps of the same list is a single map. -/
theorem zipWith_map_same {α β γ δ : Type} (h : β → γ → δ) (f : α → β)
    (g : α → γ) (l : List α) :
    List.zipWith h (l.map f) (l.map g) = l.map (fun x => h (f x) (g x)) := by
  induction l with
  | nil => rfl
  | cons a t ih => simp [ih]

/-- `getD` of a map over `List.range` at an in-range index. -/
theorem getD_range_map {β : Type} (f : ℕ → β) (n i : ℕ) (d : β) (hi : i < n) :
    ((List.range n).map f).getD i d = f i := by
  have hlen : i < ((List.range n).map f).length := by simpa using hi
  rw [List.getD_eq_getElem _ _ hlen]
  simp

/-! ## Decoder characterization -/

/-- The per-row loop is the map of the final-confidence filter over the
surviving rows. -/
theorem decodeLoop_eq (threshold : ℚ) (classNames : List String)
    (scale px py : ℚ) (oh ow : ℕ) (valid : List RawRow) :
    decodeLoop threshold classNames scale px py oh ow valid
      = (valid.filter (fun r => decide (threshold < finalConf r))).map
          (mkDetection classNames scale px py oh ow) := by
  simpa using foldl_append_ite (fun r => threshold < finalConf r)
    (mkDetection classNames scale px py oh ow) valid []

/-- Every decoder output is `mkDetection` of some raw row. -/
theorem mem_postprocess (threshold : ℚ) (classNames : List String)
    (outputs : List RawRow) (originalShape : ℕ × ℕ) (scale : ℚ)
    (padding : ℚ × ℚ) (d : Detection)
    (hd : d ∈ postprocess_detections threshold classNames outputs originalShape
        scale padding) :
    ∃ r ∈ outputs,
      d = mkDetection classNames scale padding.1 padding.2 originalShape.1
            originalShape.2 r := by
  simp only [postprocess_detections] at hd
  split at hd
  · simp at hd
  · split at hd
    · simp at hd
    · rw [decodeLoop_eq] at hd
      rcases List.mem_map.mp hd with ⟨r, hr, hmk⟩
      exact ⟨r, (List.mem_filter.mp (List.mem_filter.mp hr).1).1, hmk.symm⟩

/-! ## Fallback characterization and bounds -/

/-- The fallback loop is the map of the area filter. -/
theorem fallbackDetFromContours_eq (contours : List Contour) (h w : ℕ) :
    fallbackDetFromContours contours h w
      = (contours.filter (fun c => decide (500 < c.area))).map
          (mkFallbackDetection h w) := by
  simpa using foldl_append_ite (fun c => 500 < c.area)
    (mkFallbackDetection h w) contours []

/-- `red_mask` as a single per-pixel map. -/
theorem red_mask_eq (image : Image) :
    red_mask image
      = image.map (fun row => row.map (fun p =>
          inRangePix (0, 50, 50) (10, 255, 255) (rgbToHsv p) ||
          inRangePix (170, 50, 50) (180, 255, 255) (rgbToHsv p))) := by
  simp only [red_mask, List.map_map, zipWith_map_same]
  congr 1
  funext row
  simp [Function.comp, List.map_map, zipWith_map_same]

theorem foldl_min_le_init {α : Type} (f : α → ℕ) (l : List α) (a : ℕ) :
    l.foldl (fun m c => min m (f c)) a ≤ a := by
  induction l generalizing a with
  | nil => simp
  | cons x t ih => exact (ih _).trans (Nat.min_le_left _ _)

theorem le_foldl_max_init {α : Type} (f : α → ℕ) (l : List α) (a : ℕ) :
    a ≤ l.foldl (fun m c => max m (f c)) a := by
  induction l generalizing a with
  | nil => simp
  | cons x t ih => exact (Nat.le_max_left _ _).trans (ih _)

theorem foldl_max_lt {α : Type} (f : α → ℕ) (l : List α) (a w : ℕ)
    (ha : a < w) (hl : ∀ c ∈ l, f c < w) :
    l.foldl (fun m c => max m (f c)) a < w := by
  induction l generalizing a with
  | nil => simpa using ha
  | cons x t ih =>
      exact ih _ (Nat.max_lt.mpr ⟨ha, hl x (by simp)⟩)
        (fun c hc => hl c (by simp [hc]))

/-- Runs produced by `rowRunsAux` are nonempty and end within the row. -/
theorem rowRunsAux_bounds (bs : List Bool) :
    ∀ (j : ℕ) (cur : Option ℕ), (∀ st, cur = some st → st < j) →
      ∀ ru ∈ rowRunsAux bs j cur, ru.1 < ru.2 ∧ ru.2 ≤ j + bs.length := by
  induction bs with
  | nil =>
      intro j cur hcur ru hru
      cases cur with
      | none => simp [rowRunsAux] at hru
      | some st =>
          simp [rowRunsAux] at hru
          subst hru
          exact ⟨hcur st rfl, by simp⟩
  | cons bb bs ih =>
      intro j cur hcur ru hru
      cases cur with
      | none =>
          by_cases hb : bb = true
          · simp [rowRunsAux, hb] at hru
            have := ih (j + 1) (some j) (by intro st h; cases h; omega) ru hru
            exact ⟨this.1, by simpa [Nat.add_assoc, Nat.add_comm, Nat.add_left_comm] using this.2⟩
          · simp [rowRunsAux, hb] at hru
            have := ih (j + 1) none (by intro st h; cases h) ru hru
            exact ⟨this.1, by simpa [Nat.add_assoc, Nat.add_comm, Nat.add_left_comm] using this.2⟩
      | some st =>
          by_cases hb : bb = true
          · simp [rowRunsAux, hb] at hru
            have := ih (j + 1) (some st)
              (by intro st2 h; cases h; have := hcur st rfl; omega) ru hru
            exact ⟨this.1, by simpa [Nat.add_assoc, Nat.add_comm, Nat.add_left_comm] using this.2⟩
          · simp [rowRunsAux, hb] at hru
            rcases hru with hru | hru
            · subst hru
              exact ⟨hcur st rfl, by omega⟩
            · have := ih (j + 1) none (by intro st2 h; cases h) ru hru
              exact ⟨this.1, by simpa [Nat.add_assoc, Nat.add_comm, Nat.add_left_comm] using this.2⟩

/-- Runs of a row are nonempty column intervals within the row length. -/
theorem rowRuns_bounds (row : List Bool) :
    ∀ ru ∈ rowRuns row, ru.1 < ru.2 ∧ ru.2 ≤ row.length := by
  intro ru hru
  simpa using rowRunsAux_bounds row 0 none (by intro st h; cases h) ru hru

/-- Merging in-bounds components with an in-bounds run gives an in-bounds
component. -/
theorem mergeComps_ok (w hh i : ℕ) (run : ℕ × ℕ) (cs : List CompState)
    (hr1 : run.1 < run.2) (hr2 : run.2 ≤ w) (hi : i < hh)
    (hcs : ∀ c ∈ cs, compOK w hh c) :
    compOK w hh (mergeComps i run cs) := by
  refine ⟨?_, ?_, ?_, ?_⟩
  · exact (foldl_min_le_init (fun c => c.minx) cs run.1).trans
      (le_trans (by omega) (le_foldl_max_init (fun c => c.maxx) cs (run.2 - 1)))
  · exact foldl_max_lt (fun c => c.maxx) cs (run.2 - 1) w (by omega)
      (fun c hc => (hcs c hc).2.1)
  · exact (foldl_min_le_init (fun c => c.miny) cs i).trans
      (le_foldl_max_init (fun c => c.maxy) cs i)
  · exact foldl_max_lt (fun c => c.maxy) cs i hh hi
      (fun c hc => (hcs c hc).2.2.2)

/-- Processing the runs of one row preserves the component bounds. -/
theorem foldl_runs_ok (w hh i : ℕ) (runs : List (ℕ × ℕ))
    (hruns : ∀ ru ∈ runs, ru.1 < ru.2 ∧ ru.2 ≤ w) (hi : i < hh) :
    ∀ act : List CompState, (∀ c ∈ act, compOK w hh c) →
      ∀ c ∈ runs.foldl
        (fun act run =>
          mergeComps i run (act.filter (runTouches run)) ::
            act.filter (fun c => !(runTouches run c)))
        act, compOK w hh c := by
  induction runs with
  | nil => intro act hact c hc; exact hact c hc
  | cons ru rt ih =>
      intro act hact c hc
      refine ih (fun r hr => hruns r (by simp [hr])) _ ?_ c hc
      intro c2 hc2
      rcases List.mem_cons.mp hc2 with hc2 | hc2
      · subst hc2
        exact mergeComps_ok w hh i ru _ (hruns ru (by simp)).1
          (hruns ru (by simp)).2 hi
          (fun c3 hc3 => hact c3 (List.mem_of_mem_filter hc3))
      · exact hact c2 (List.mem_of_mem_filter hc2)

/-- The sweep only ever produces in-bounds components. -/
theorem sweep_ok (w hh : ℕ) (rows : List (List Bool)) :
    ∀ (i : ℕ) (fin act : List CompState),
      (∀ row ∈ rows, row.length ≤ w) → i + rows.length ≤ hh →
      (∀ c ∈ fin, compOK w hh c) → (∀ c ∈ act, compOK w hh c) →
      ∀ c ∈ sweep rows i fin act, compOK w hh c := by
  induction rows with
  | nil =>
      intro i fin act _ _ hfin hact c hc
      rcases List.mem_append.mp hc with h | h
      · exact hfin c h
      · exact hact c h
  | cons row rest ih =>
      intro i fin act hrow hlen hfin hact c hc
      have hi : i < hh := by simp at hlen; omega
      have hact0 : ∀ c ∈ act.map
          (fun c => { c with prevRuns := c.curRuns, curRuns := ([] : List (ℕ × ℕ)) }),
          compOK w hh c := by
        intro c2 hc2
        rcases List.mem_map.mp hc2 with ⟨c3, hc3, hmk⟩
        have := hact c3 hc3
        subst hmk
        exact this
      have hact1 := foldl_runs_ok w hh i (rowRuns row)
        (fun ru hru => ⟨(rowRuns_bounds row ru hru).1,
          (rowRuns_bounds row ru hru).2.trans (hrow row (by simp))⟩) hi _ hact0
      refine ih (i + 1) _ _ (fun r hr => hrow r (by simp [hr]))
        (by simp at hlen ⊢; omega) ?_ ?_ c hc
      · intro c2 hc2
        rcases List.mem_append.mp hc2 with h | h
        · exact hfin c2 h
        · exact hact1 c2 (List.mem_of_mem_filter h)
      · intro c2 hc2
        exact hact1 c2 (List.mem_of_mem_filter hc2)

/-- Every modelled contour lies inside the mask grid. -/
theorem findContours_bounds (mask : List (List Bool)) (w : ℕ)
    (hrow : ∀ row ∈ mask, row.length ≤ w) :
    ∀ c ∈ findContoursModel mask,
      0 < c.cw ∧ 0 < c.ch ∧ c.x + c.cw ≤ w ∧ c.y + c.ch ≤ mask.length := by
  intro c hc
  rcases List.mem_map.mp hc with ⟨cs, hcs, hmk⟩
  have hok := sweep_ok w mask.length mask 0 [] [] hrow (by omega)
    (by intro c2 h; cases h) (by intro c2 h; cases h) cs hcs
  subst hmk
  rcases hok with ⟨h1, h2, h3, h4⟩
  refine ⟨Nat.succ_pos _, Nat.succ_pos _, by simp; omega, by simp; omega⟩

/-- Shape of the red mask for a rectangular image. -/
theorem red_mask_shape (image : Image)
    (hrect : ∀ row ∈ image, row.length = imageWidth image) :
    (red_mask image).length = imageHeight image ∧
    ∀ mrow ∈ red_mask image, mrow.length = imageWidth image := by
  rw [red_mask_eq]
  constructor
  · simp [imageHeight]
  · intro mrow hmrow
    rcases List.mem_map.mp hmrow with ⟨row, hrow, hmk⟩
    subst hmk
    simpa using hrect row hrow

/-- Every fallback output is `mkFallbackDetection` of a large contour of the
red mask. -/
theorem mem_fallback (s : ServerState) (image : Image) (d : Detection)
    (hd : d ∈ fallback_detection s image) :
    ∃ c ∈ findContoursModel (red_mask image),
      500 < c.area ∧
      d = mkFallbackDetection (imageHeight image) (imageWidth image) c := by
  simp only [fallback_detection, fallbackDetFromContours_eq] at hd
  rcases List.mem_map.mp hd with ⟨c, hc, hmk⟩
  refine ⟨c, (List.mem_filter.mp hc).1, ?_, hmk.symm⟩
  simpa using (List.mem_filter.mp hc).2

/-- The fallback pipeline evaluated on the concrete red-square image. -/
theorem fallback_red_eval :
    fallback_detection sampleServer redSquareImage
      = [⟨"red_object", 4/5, 1/17, 1/17, 16/17, 16/17⟩] := by
  have hc : findContoursModel (red_mask redSquareImage) = [⟨900, 2, 2, 30, 30⟩] := by
    decide
  have hh : imageHeight redSquareImage = 34 := by decide
  have hw : imageWidth redSquareImage = 34 := by decide
  simp only [fallback_detection, hc, hh, hw, fallbackDetFromContours,
    mkFallbackDetection, List.foldl_cons, List.foldl_nil]
  norm_num

/-! ## Claims -/

/-- C1 (counterexample): as stated, the claim is false.  With scale 1, no
padding and a 100 × 100 original image, the raw row
`(cx, cy, w, h, conf, scores) = (300, 50, 10, 10, 0.9, [0.9])` survives the
threshold 0.5 and decodes to `xmin = max(0, 295/100) = 2.95 > 1`: `xmin` is
clamped only from below (line 178), so a box entirely right of the image
yields `xmin` outside `[0,1]`. -/
theorem c1_counterexample :
    ∃ d ∈ postprocess_detections (1/2) [] [⟨300, 50, 10, 10, 9/10, [9/10]⟩]
        (100, 100) 1 (0, 0), 1 < d.xmin := by
  refine ⟨⟨"class_0", 81/100, 59/20, 9/20, 1, 11/20⟩, ?_, by norm_num⟩
  have heval :
      postprocess_detections (1/2) [] [⟨300, 50, 10, 10, 9/10, [9/10]⟩]
        (100, 100) 1 (0, 0)
        = [⟨"class_0", 81/100, 59/20, 9/20, 1, 11/20⟩] := by
    norm_num [postprocess_detections, decodeLoop, mkDetection, preclampCorners,
      finalConf, maxList, argmaxList, argmaxAux, classNameOf, List.filter]
    rfl
  rw [heval]
  exact List.mem_singleton.mpr rfl

/-- C1 (amended): every decoder Detection has `xmin, ymin ≥ 0` and
`xmax, ymax ≤ 1` (the code clamps `xmin, ymin` only from below with `max 0`
and `xmax, ymax` only from above with `min 1`, so a pre-clamp box lying
entirely outside the image can push `xmin`/`ymin` above 1 or `xmax`/`ymax`
below 0); every fallback Detection on a rectangular image of positive size
has all four coordinates within `[0,1]`. -/
theorem c1_amended_clamp :
    (∀ (threshold : ℚ) (classNames : List String) (outputs : List RawRow)
        (originalShape : ℕ × ℕ) (scale : ℚ) (padding : ℚ × ℚ),
      ∀ d ∈ postprocess_detections threshold classNames outputs originalShape
          scale padding,
        0 ≤ d.xmin ∧ 0 ≤ d.ymin ∧ d.xmax ≤ 1 ∧ d.ymax ≤ 1) ∧
    (∀ (s : ServerState) (image : Image),
        (∀ row ∈ image, row.length = imageWidth image) →
        0 < imageHeight image → 0 < imageWidth image →
      ∀ d ∈ fallback_detection s image,
        0 ≤ d.xmin ∧ d.xmin ≤ 1 ∧ 0 ≤ d.ymin ∧ d.ymin ≤ 1 ∧
        0 ≤ d.xmax ∧ d.xmax ≤ 1 ∧ 0 ≤ d.ymax ∧ d.ymax ≤ 1) := by
  constructor
  · intro thr names outputs shape scale pad d hd
    rcases mem_postprocess thr names outputs shape scale pad d hd with ⟨r, _, hmk⟩
    subst hmk
    simp only [mkDetection]
    exact ⟨le_max_left _ _, le_max_left _ _, min_le_left _ _, min_le_left _ _⟩
  · intro s image hrect hh hw d hd
    rcases mem_fallback s image d hd with ⟨c, hc, _, hmk⟩
    subst hmk
    have hb := findContours_bounds (red_mask image) (imageWidth image)
      (fun row hr => le_of_eq ((red_mask_shape image hrect).2 row hr)) c hc
    have hmlen := (red_mask_shape image hrect).1
    have hxw : c.x + c.cw ≤ imageWidth image := hb.2.2.1
    have hyh : c.y + c.ch ≤ imageHeight image := by
      have := hb.2.2.2
      omega
    have hwq : (0 : ℚ) < (imageWidth image : ℚ) := by exact_mod_cast hw
    have hhq : (0 : ℚ) < (imageHeight image : ℚ) := by exact_mod_cast hh
    simp only [mkFallbackDetection]
    refine ⟨div_nonneg (Nat.cast_nonneg _) (Nat.cast_nonneg _), ?_,
            div_nonneg (Nat.cast_nonneg _) (Nat.cast_nonneg _), ?_,
            div_nonneg (Nat.cast_nonneg _) (Nat.cast_nonneg _), ?_,
            div_nonneg (Nat.cast_nonneg _) (Nat.cast_nonneg _), ?_⟩
    · exact (div_le_one hwq).mpr (by exact_mod_cast Nat.le_of_lt_succ (by omega))
    · exact (div_le_one hhq).mpr (by exact_mod_cast Nat.le_of_lt_succ (by omega))
    · exact (div_le_one hwq).mpr (by exact_mod_cast hxw)
    · exact (div_le_one hhq).mpr (by exact_mod_cast hyh)

/-- C1 (witness): the amended fallback bound applied to the detection the
red-square image actually produces. -/
theorem c1_witness :
    0 ≤ (⟨"red_object", 4/5, 1/17, 1/17, 16/17, 16/17⟩ : Detection).xmin ∧
    (⟨"red_object", 4/5, 1/17, 1/17, 16/17, 16/17⟩ : Detection).xmin ≤ 1 ∧
    0 ≤ (⟨"red_object", 4/5, 1/17, 1/17, 16/17, 16/17⟩ : Detection).ymin ∧
    (⟨"red_object", 4/5, 1/17, 1/17, 16/17, 16/17⟩ : Detection).ymin ≤ 1 ∧
    0 ≤ (⟨"red_object", 4/5, 1/17, 1/17, 16/17, 16/17⟩ : Detection).xmax ∧
    (⟨"red_object", 4/5, 1/17, 1/17, 16/17, 16/17⟩ : Detection).xmax ≤ 1 ∧
    0 ≤ (⟨"red_object", 4/5, 1/17, 1/17, 16/17, 16/17⟩ : Detection).ymax ∧
    (⟨"red_object", 4/5, 1/17, 1/17, 16/17, 16/17⟩ : Detection).ymax ≤ 1 :=
  c1_amended_clamp.2 sampleServer redSquareImage (by decide) (by decide)
    (by decide) ⟨"red_object", 4/5, 1/17, 1/17, 16/17, 16/17⟩
    (by rw [fallback_red_eval]; exact List.mem_singleton.mpr rfl)

/-- C2 (counterexample): as stated, the invariant fails.  With scale 1, no
padding and a 100 × 100 image, the raw row
`(400, 300, 10, 10, 0.9, [0.9])` decodes to
`xmin = max(0, 3.95) = 3.95` and `xmax = min(1, 4.05) = 1`, so
`xmax < xmin` (and likewise `ymax < ymin`): a box entirely outside the
image breaks the ordering after the one-sided clamps. -/
theorem c2_counterexample :
    ∃ d ∈ postprocess_detections (1/2) [] [⟨400, 300, 10, 10, 9/10, [9/10]⟩]
        (100, 100) 1 (0, 0), d.xmax < d.xmin ∧ d.ymax < d.ymin := by
  refine ⟨⟨"class_0", 81/100, 79/20, 59/20, 1, 1⟩, ?_, by norm_num⟩
  have heval :
      postprocess_detections (1/2) [] [⟨400, 300, 10, 10, 9/10, [9/10]⟩]
        (100, 100) 1 (0, 0)
        = [⟨"class_0", 81/100, 79/20, 59/20, 1, 1⟩] := by
    norm_num [postprocess_detections, decodeLoop, mkDetection, preclampCorners,
      finalConf, maxList, argmaxList, argmaxAux, classNameOf, List.filter]
    rfl
  rw [heval]
  exact List.mem_singleton.mpr rfl

/-- C2 (amended): every fallback Detection on an image of positive size
satisfies `xmin ≤ xmax ∧ ymin ≤ ymax`; a decoder Detection satisfies it
whenever the pre-clamp corner interval of its row is ordered and meets
`[0,1]` on each axis — a box lying entirely outside `[0,1]` on an axis can
violate the invariant (see the counterexample). -/
theorem c2_amended_order :
    (∀ (threshold : ℚ) (classNames : List String) (outputs : List RawRow)
        (originalShape : ℕ × ℕ) (scale : ℚ) (padding : ℚ × ℚ),
        (∀ r ∈ outputs, boxMeetsImage scale padding.1 padding.2
            originalShape.1 originalShape.2 r) →
      ∀ d ∈ postprocess_detections threshold classNames outputs originalShape
          scale padding,
        d.xmin ≤ d.xmax ∧ d.ymin ≤ d.ymax) ∧
    (∀ (s : ServerState) (image : Image),
        0 < imageHeight image → 0 < imageWidth image →
      ∀ d ∈ fallback_detection s image,
        d.xmin ≤ d.xmax ∧ d.ymin ≤ d.ymax) := by
  constructor
  · intro thr names outputs shape scale pad hmeets d hd
    rcases mem_postprocess thr names outputs shape scale pad d hd with ⟨r, hr, hmk⟩
    subst hmk
    rcases hmeets r hr with ⟨hx1, hx2, hx3, hy1, hy2, hy3⟩
    simp only [mkDetection]
    constructor
    · exact max_le (le_min zero_le_one hx3) (le_min hx2 hx1)
    · exact max_le (le_min zero_le_one hy3) (le_min hy2 hy1)
  · intro s image hh hw d hd
    rcases mem_fallback s image d hd with ⟨c, _, _, hmk⟩
    subst hmk
    have hwq : (0 : ℚ) < (imageWidth image : ℚ) := by exact_mod_cast hw
    have hhq : (0 : ℚ) < (imageHeight image : ℚ) := by exact_mod_cast hh
    simp only [mkFallbackDetection]
    constructor
    · exact (div_le_div_iff_of_pos_right hwq).mpr (by exact_mod_cast Nat.le_add_right _ _)
    · exact (div_le_div_iff_of_pos_right hhq).mpr (by exact_mod_cast Nat.le_add_right _ _)

/-- C2 (witness): the amended invariant at the concrete decoder input
`(50, 50, 10, 10, 1, [1])` with scale 1, no padding, a 100 × 100 image and
threshold 0.5, whose pre-clamp box `[0.45, 0.55]²` lies inside the image. -/
theorem c2_witness :
    (⟨"class_0", 1, 9/20, 9/20, 11/20, 11/20⟩ : Detection).xmin
        ≤ (⟨"class_0", 1, 9/20, 9/20, 11/20, 11/20⟩ : Detection).xmax ∧
    (⟨"class_0", 1, 9/20, 9/20, 11/20, 11/20⟩ : Detection).ymin
        ≤ (⟨"class_0", 1, 9/20, 9/20, 11/20, 11/20⟩ : Detection).ymax := by
  refine c2_amended_order.1 (1/2) [] [⟨50, 50, 10, 10, 1, [1]⟩] (100, 100) 1
    (0, 0) ?_ _ ?_
  · intro r hr
    rcases List.mem_singleton.mp hr with rfl
    norm_num [boxMeetsImage, preclampCorners]
  · have heval :
        postprocess_detections (1/2) [] [⟨50, 50, 10, 10, 1, [1]⟩]
          (100, 100) 1 (0, 0)
          = [⟨"class_0", 1, 9/20, 9/20, 11/20, 11/20⟩] := by
      norm_num [postprocess_detections, decodeLoop, mkDetection, preclampCorners,
        finalConf, maxList, argmaxList, argmaxAux, classNameOf, List.filter]
      rfl
    rw [heval]
    exact List.mem_singleton.mpr rfl

/-- C3 (counterexample): as stated, the claim is false.  With threshold 0
and two surviving rows, an exception while handling the second candidate
(modelled by `raiseAt = 1`) reaches the `except` block with one detection
already appended; line 198 then returns that one-element partial list, not
an empty one. -/
theorem c3_counterexample :
    postprocess_detections_exn 0 [] [⟨10, 10, 2, 2, 1, [1]⟩, ⟨20, 20, 2, 2, 1, [1]⟩]
        (100, 100) 1 (0, 0) 1 ≠ [] ∧
    (postprocess_detections_exn 0 [] [⟨10, 10, 2, 2, 1, [1]⟩, ⟨20, 20, 2, 2, 1, [1]⟩]
        (100, 100) 1 (0, 0) 1).length = 1 ∧
    (postprocess_detections 0 [] [⟨10, 10, 2, 2, 1, [1]⟩, ⟨20, 20, 2, 2, 1, [1]⟩]
        (100, 100) 1 (0, 0)).length = 2 := by
  norm_num [postprocess_detections_exn, postprocess_detections, decodeLoop,
    mkDetection, preclampCorners, finalConf, maxList, argmaxList, argmaxAux,
    classNameOf, List.filter, List.take]

/-- C3 (amended): any exception during decoding is caught (the function
always returns normally — the model is total) and the detections
accumulated before the exception point are returned: a prefix of the
full decode, empty exactly when the exception precedes the first append
(`raiseAt = 0` covers every pre-loop failure, e.g. an unexpected output
shape). -/
theorem c3_amended_caught (threshold : ℚ) (classNames : List String)
    (outputs : List RawRow) (originalShape : ℕ × ℕ) (scale : ℚ)
    (padding : ℚ × ℚ) (raiseAt : ℕ) :
    (∃ rest,
        postprocess_detections_exn threshold classNames outputs originalShape
            scale padding raiseAt ++ rest
          = postprocess_detections threshold classNames outputs originalShape
              scale padding) ∧
    postprocess_detections_exn threshold classNames outputs originalShape
        scale padding 0 = [] := by
  constructor
  · simp only [postprocess_detections_exn, postprocess_detections]
    split
    · exact ⟨[], rfl⟩
    · split
      · exact ⟨[], rfl⟩
      · rw [decodeLoop_eq, decodeLoop_eq]
        refine ⟨((List.filter (fun r => decide (threshold < finalConf r))
            (List.drop raiseAt
              (outputs.filter (fun r => decide (threshold < r.conf))))).map
              (mkDetection classNames scale padding.1 padding.2
                originalShape.1 originalShape.2)), ?_⟩
        rw [← List.map_append, ← List.filter_append, List.take_append_drop]
  · simp only [postprocess_detections_exn]
    split
    · rfl
    · split
      · rfl
      · simp [decodeLoop]

/-- C4 (counterexample): as stated, the claim is false.  When the dispatched
path raises (here: the oracle marks an escaping exception), `detect`
returns the empty sequence, but the metric updates on lines 259–260 sit
inside the `try` and are skipped: `inference_count` stays 0 instead of
being incremented to 1, and no time is added. -/
theorem c4_counterexample :
    (detect sampleServer [] ⟨true, [], 5⟩).2 = [] ∧
    (detect sampleServer [] ⟨true, [], 5⟩).1.inference_count = 0 ∧
    (detect sampleServer [] ⟨true, [], 5⟩).1.total_inference_time = 0 ∧
    sampleServer.inference_count = 0 := by
  refine ⟨rfl, rfl, rfl, rfl⟩

/-- C4 (amended): when no exception escapes the dispatched path,
`inference_count` is incremented by exactly 1 and the elapsed wall-clock
time is added to `total_inference_time` (including the empty-result case:
`postprocess_detections` swallows its own failures and still reaches the
metric update); when an exception escapes the dispatched path, `detect`
catches it, returns an empty sequence, and leaves both counters
unchanged.  In either case `detect` returns normally. -/
theorem c4_amended_metrics (s : ServerState) (image : Image)
    (o : DetectOracle) :
    (detect s image o).1.inference_count
        = s.inference_count + (if o.pathRaises then 0 else 1) ∧
    (detect s image o).1.total_inference_time
        = s.total_inference_time + (if o.pathRaises then 0 else o.elapsed) ∧
    (o.pathRaises = true → (detect s image o).2 = []) := by
  cases h : o.pathRaises <;> simp [detect, h]

/-- C4 (witness): the amended statement at a concrete call in fallback mode
with elapsed time 5 and no escaping exception: the counters advance. -/
theorem c4_witness :
    (detect sampleServer redSquareImage ⟨false, [], 5⟩).1.inference_count
        = sampleServer.inference_count + (if (false : Bool) then 0 else 1) ∧
    (detect sampleServer redSquareImage ⟨false, [], 5⟩).1.total_inference_time
        = sampleServer.total_inference_time
            + (if (false : Bool) then 0 else (5 : ℚ)) :=
  ⟨(c4_amended_metrics sampleServer redSquareImage ⟨false, [], 5⟩).1,
   (c4_amended_metrics sampleServer redSquareImage ⟨false, [], 5⟩).2.1⟩

/-- C9: a `detect` call mutates nothing but the two statistics counters —
the configuration (`confidence_threshold`, `input_shape`), `model_path`,
the session presence and `class_names` are unchanged on every path
(backend or fallback, success or escaping exception). -/
theorem c9_detect_frame (s : ServerState) (image : Image) (o : DetectOracle) :
    (detect s image o).1.confidence_threshold = s.confidence_threshold ∧
    (detect s image o).1.model_path = s.model_path ∧
    (detect s image o).1.hasSession = s.hasSession ∧
    (detect s image o).1.input_shape = s.input_shape ∧
    (detect s image o).1.class_names = s.class_names := by
  cases h : o.pathRaises <;> simp [detect, h]

/-- C10: the fallback detector's output depends only on the image pixels:
the configured confidence threshold is never read on the fallback path, so
any two threshold values give identical detection lists. -/
theorem c10_fallback_threshold_independent (s : ServerState) (image : Image)
    (t1 t2 : ℚ) :
    fallback_detection { s with confidence_threshold := t1 } image
      = fallback_detection { s with confidence_threshold := t2 } image := rfl

/-- C7: confidence-filter monotonicity.  For a fixed raw output (a
rectangular `[1, N, 5+C]` array, so every row carries the same number `C`
of class scores), transform context and original shape, raising the
threshold never increases the number of returned detections: a row must
pass `object_conf > t` and `object_conf · class_conf > t`, and both tests
are antitone in `t`. -/
theorem c7_threshold_monotone (t1 t2 : ℚ) (h12 : t1 ≤ t2)
    (classNames : List String) (outputs : List RawRow) (C : ℕ)
    (hrect : ∀ r ∈ outputs, r.classScores.length = C)
    (originalShape : ℕ × ℕ) (scale : ℚ) (padding : ℚ × ℚ) :
    (postprocess_detections t2 classNames outputs originalShape scale
        padding).length
      ≤ (postprocess_detections t1 classNames outputs originalShape scale
          padding).length := by
  by_cases hz : (postprocess_detections t2 classNames outputs originalShape
      scale padding) = []
  · simp [hz]
  · -- the t2 result is nonempty, so the t2 survivor set is nonempty and the
    -- class-score axis is nonempty; both facts transfer to t1
    have hv2ne : ¬(outputs.filter (fun r => decide (t2 < r.conf))).isEmpty = true := by
      intro hempty
      exact hz (by simp [postprocess_detections, hempty])
    have hv2scores :
        ¬((outputs.filter (fun r => decide (t2 < r.conf))).any
            fun r => r.classScores.isEmpty) = true := by
      intro hany
      exact hz (by simp [postprocess_detections, hany])
    have h2ne : outputs.filter (fun r => decide (t2 < r.conf)) ≠ [] := by
      simpa [List.isEmpty_iff] using hv2ne
    have hsub : ∀ r ∈ outputs, decide (t2 < r.conf) = true →
        decide (t1 < r.conf) = true := by
      intro r _ h
      simp only [decide_eq_true_eq] at h ⊢
      exact lt_of_le_of_lt h12 h
    have hCpos : C ≠ 0 := by
      rcases List.exists_mem_of_ne_nil _ h2ne with ⟨r, hr⟩
      intro hC0
      apply hv2scores
      rw [List.any_eq_true]
      refine ⟨r, hr, ?_⟩
      have hlen := hrect r (List.mem_of_mem_filter hr)
      rw [List.isEmpty_iff]
      exact List.eq_nil_of_length_eq_zero (by omega)
    have hv1ne : ¬(outputs.filter (fun r => decide (t1 < r.conf))).isEmpty = true := by
      rcases List.exists_mem_of_ne_nil _ h2ne with ⟨r, hr⟩
      rcases List.mem_filter.mp hr with ⟨hr1, hr2⟩
      have hmem : r ∈ outputs.filter (fun r => decide (t1 < r.conf)) :=
        List.mem_filter.mpr ⟨hr1, hsub r hr1 hr2⟩
      simp only [List.isEmpty_iff]
      exact List.ne_nil_of_mem hmem
    have hv1scores :
        ¬((outputs.filter (fun r => decide (t1 < r.conf))).any
            fun r => r.classScores.isEmpty) = true := by
      intro hany
      rcases List.any_eq_true.mp hany with ⟨r, hr, hscore⟩
      have hlen := hrect r (List.mem_of_mem_filter hr)
      have hnil : r.classScores = [] := by simpa [List.isEmpty_iff] using hscore
      apply hCpos
      rw [← hlen, hnil]
      rfl
    simp only [postprocess_detections]
    rw [if_neg hv2ne, if_neg hv2scores, if_neg hv1ne, if_neg hv1scores,
      decodeLoop_eq, decodeLoop_eq]
    simp only [List.length_map, List.filter_filter]
    exact length_filter_mono _ _ outputs (by
      intro r _ h
      simp only [Bool.and_eq_true, decide_eq_true_eq] at h ⊢
      exact ⟨lt_of_le_of_lt h12 h.1, lt_of_le_of_lt h12 h.2⟩)

/-- C7 (witness): monotonicity at thresholds `0 ≤ 1` on a concrete one-row
output with final confidence 2. -/
theorem c7_witness :
    (postprocess_detections 1 [] [⟨50, 50, 10, 10, 2, [1]⟩] (100, 100) 1
        (0, 0)).length
      ≤ (postprocess_detections 0 [] [⟨50, 50, 10, 10, 2, [1]⟩] (100, 100) 1
          (0, 0)).length :=
  c7_threshold_monotone 0 1 (by norm_num) [] [⟨50, 50, 10, 10, 2, [1]⟩] 1
    (by intro r hr; rcases List.mem_singleton.mp hr with rfl; rfl)
    (100, 100) 1 (0, 0)

/-- C8: the fallback emits exactly one Detection per extracted contour of
the red mask whose pixel area exceeds 500, each with the fixed label
`"red_object"`, fixed score `0.8` and bounding box normalised by the image
dimensions; and the concrete 34 × 34 image containing a single pure-red
30 × 30 square (area 900 px²) yields exactly one such Detection. -/
theorem c8_fallback_contours :
    (∀ (s : ServerState) (image : Image),
        fallback_detection s image
          = ((findContoursModel (red_mask image)).filter
                (fun c => decide (500 < c.area))).map
              (mkFallbackDetection (imageHeight image) (imageWidth image))) ∧
    fallback_detection sampleServer redSquareImage
      = [⟨"red_object", 4/5, 1/17, 1/17, 16/17, 16/17⟩] :=
  ⟨fun s image => by
      simp only [fallback_detection, fallbackDetFromContours_eq],
   fallback_red_eval⟩

/-- C6 (counterexample): "exactly one of width/height equals its target"
fails when the aspect ratios match: a 4 × 4 image letterboxed to a 4 × 4
target resizes to (4, 4) — both dimensions equal their targets. -/
theorem c6_counterexample :
    (resized_dims 4 4 4 4).1 = 4 ∧ (resized_dims 4 4 4 4).2 = 4 ∧
    ¬(((resized_dims 4 4 4 4).1 = 4 ∧ ¬(resized_dims 4 4 4 4).2 = 4) ∨
      (¬(resized_dims 4 4 4 4).1 = 4 ∧ (resized_dims 4 4 4 4).2 = 4)) := by
  have h1 : resized_dims 4 4 4 4 = (4, 4) := by
    norm_num [resized_dims, letterbox_scale, Prod.ext_iff]
    omega
  rw [h1]
  norm_num

/-- C6 (amended): for every image of positive height and width,
`resized_w ≤ target_w`, `resized_h ≤ target_h`, and AT LEAST one of the
two equals its target (with exact arithmetic the side realising the
minimum scale lands exactly on its target; both do when the aspect ratios
match, as the counterexample shows). -/
theorem c6_letterbox_amended (h w th tw : ℕ) (hh : 0 < h) (hw : 0 < w) :
    (resized_dims h w th tw).1 ≤ tw ∧ (resized_dims h w th tw).2 ≤ th ∧
    ((resized_dims h w th tw).1 = tw ∨ (resized_dims h w th tw).2 = th) := by
  have hwq : (0 : ℚ) < (w : ℚ) := by exact_mod_cast hw
  have hhq : (0 : ℚ) < (h : ℚ) := by exact_mod_cast hh
  have hW : (w : ℚ) * letterbox_scale h w th tw ≤ (tw : ℚ) := by
    calc (w : ℚ) * letterbox_scale h w th tw
        ≤ (w : ℚ) * ((tw : ℚ) / (w : ℚ)) :=
          mul_le_mul_of_nonneg_left (min_le_left _ _) (le_of_lt hwq)
      _ = (tw : ℚ) := by field_simp
  have hH : (h : ℚ) * letterbox_scale h w th tw ≤ (th : ℚ) := by
    calc (h : ℚ) * letterbox_scale h w th tw
        ≤ (h : ℚ) * ((th : ℚ) / (h : ℚ)) :=
          mul_le_mul_of_nonneg_left (min_le_right _ _) (le_of_lt hhq)
      _ = (th : ℚ) := by field_simp
  have hfW : ⌊(w : ℚ) * letterbox_scale h w th tw⌋ ≤ (tw : ℤ) := by
    have := Int.floor_le_floor hW
    simpa using this
  have hfH : ⌊(h : ℚ) * letterbox_scale h w th tw⌋ ≤ (th : ℤ) := by
    have := Int.floor_le_floor hH
    simpa using this
  refine ⟨by simp only [resized_dims]; omega, by simp only [resized_dims]; omega, ?_⟩
  rcases le_total ((tw : ℚ) / (w : ℚ)) ((th : ℚ) / (h : ℚ)) with hmin | hmin
  · left
    have hsc : letterbox_scale h w th tw = (tw : ℚ) / (w : ℚ) :=
      min_eq_left hmin
    have hexact : (w : ℚ) * letterbox_scale h w th tw = (tw : ℚ) := by
      rw [hsc, mul_comm, div_mul_cancel₀]
      exact ne_of_gt hwq
    have : ⌊(w : ℚ) * letterbox_scale h w th tw⌋ = (tw : ℤ) := by
      rw [hexact]
      exact Int.floor_natCast tw
    simp only [resized_dims]
    omega
  · right
    have hsc : letterbox_scale h w th tw = (th : ℚ) / (h : ℚ) :=
      min_eq_right hmin
    have hexact : (h : ℚ) * letterbox_scale h w th tw = (th : ℚ) := by
      rw [hsc, mul_comm, div_mul_cancel₀]
      exact ne_of_gt hhq
    have : ⌊(h : ℚ) * letterbox_scale h w th tw⌋ = (th : ℤ) := by
      rw [hexact]
      exact Int.floor_natCast th
    simp only [resized_dims]
    omega

/-- C6 (witness): the amended invariant at the spec's own scenario — a
640 × 480 image letterboxed to 640 × 640 resizes to 640 × 480: width hits
its target, height stays below. -/
theorem c6_witness :
    (resized_dims 480 640 640 640).1 ≤ 640 ∧
    (resized_dims 480 640 640 640).2 ≤ 640 ∧
    ((resized_dims 480 640 640 640).1 = 640 ∨
     (resized_dims 480 640 640 640).2 = 640) :=
  c6_letterbox_amended 480 640 640 640 (by decide) (by decide)

/-- C5 (counterexample): the claim says the image is resized to
`(round(w·scale), round(h·scale))`, but line 111 uses `int(...)`, which
truncates.  For a 2 × 3 image letterboxed to a 4 × 4 target,
`scale = 4/3` and `h·scale = 8/3`: the code resizes the height to
`int(8/3) = 2`, while `round(8/3) = 3`. -/
theorem c5_counterexample :
    (resized_dims 2 3 4 4).2 = 2 ∧
    Int.toNat (round ((2 : ℚ) * letterbox_scale 2 3 4 4)) = 3 := by
  constructor
  · norm_num [resized_dims, letterbox_scale]
    decide
  · rw [round_eq]
    norm_num [letterbox_scale]
    decide

/-- Index access into the letterbox canvas: gray fill 114 outside the
centered window, the resized image inside it. -/
theorem letterbox_canvas_getD (img : Image) (th tw i j : ℕ)
    (hi : i < th) (hj : j < tw) :
    ((letterbox_canvas img th tw).getD i []).getD j (0, 0, 0)
      = (if (pad_offsets (imageHeight img) (imageWidth img) th tw).2 ≤ i ∧
            i < (pad_offsets (imageHeight img) (imageWidth img) th tw).2
                  + (resized_dims (imageHeight img) (imageWidth img) th tw).2 ∧
            (pad_offsets (imageHeight img) (imageWidth img) th tw).1 ≤ j ∧
            j < (pad_offsets (imageHeight img) (imageWidth img) th tw).1
                  + (resized_dims (imageHeight img) (imageWidth img) th tw).1 then
          ((resizeExt img
              (resized_dims (imageHeight img) (imageWidth img) th tw).1
              (resized_dims (imageHeight img) (imageWidth img) th tw).2).getD
            (i - (pad_offsets (imageHeight img) (imageWidth img) th tw).2)
            []).getD
            (j - (pad_offsets (imageHeight img) (imageWidth img) th tw).1)
            (0, 0, 0)
        else (114, 114, 114)) := by
  simp only [letterbox_canvas]
  rw [getD_range_map _ _ _ _ hi, getD_range_map _ _ _ _ hj]

/-- C5 (amended): `preprocess_image` computes
`scale = min(target_w/w, target_h/h)`, resizes to
`(int(w·scale), int(h·scale))` — truncation, NOT `round` as claimed (see
the counterexample) — centers the resized image on a canvas of exactly
`(target_h, target_w)` filled with 114 per channel, computes the padding
offsets by integer floor division, and returns `(tensor, scale,
(pad_x, pad_y))`. -/
theorem c5_preprocess_amended (img : Image) (th tw : ℕ) :
    LetterboxSpec img th tw := by
  refine ⟨rfl, rfl, rfl, by simp [resizeExt], ?_, by simp [letterbox_canvas], ?_, ?_, ?_, rfl, rfl, ?_⟩
  · intro row hrow
    rcases List.mem_map.mp hrow with ⟨k, _, hmk⟩
    subst hmk
    simp
  · intro row hrow
    simp only [letterbox_canvas] at hrow
    rcases List.mem_map.mp hrow with ⟨k, _, hmk⟩
    subst hmk
    simp
  · intro i j hi hj hnot
    rw [letterbox_canvas_getD img th tw i j hi hj, if_neg hnot]
  · intro i j hi hj h1 h2 h3 h4
    rw [letterbox_canvas_getD img th tw i j hi hj, if_pos ⟨h1, h2, h3, h4⟩]
  · intro plane hplane
    simp only [image_tensor, List.headD, List.mem_cons, List.not_mem_nil,
      or_false] at hplane
    rcases hplane with hp | hp | hp
    all_goals subst hp
    all_goals refine ⟨by simp [letterbox_canvas], ?_⟩
    all_goals
      (intro prow hprow
       rcases List.mem_map.mp hprow with ⟨row, hrow, hmk⟩
       subst hmk
       simp only [letterbox_canvas] at hrow
       rcases List.mem_map.mp hrow with ⟨k, hk, hmk2⟩
       subst hmk2
       simp)
